import Mathlib

/-!
# Bridge Runner: the per-frame simulation of `game.js`

A shallow embedding of the simulation core of `src/game.js` (Player, Bridge,
`initGame`, `update`) and the properties of it that the specification states.

Numbers: JavaScript numbers are modelled as exact rationals `ℚ` (every value
the game produces from `initGame` is an integer; rounding, `NaN` and
infinities of IEEE doubles are outside the model).  The tick counter
`animationTimer` and `score` start at 0 and are only ever incremented, they
are `ℕ`.  `Math.random()` is modelled by the pair of draws handed to each
tick (`Draws`).
-/

namespace BridgeRunner

/-! ## Configuration (lines 2-13) -/

/-- Shape of the `config` object literal. -/
structure Config where
  width : ℚ
  height : ℚ
  fps : ℚ
  gravity : ℚ
  jumpStrength : ℚ
  speed : ℚ
  playerRunTilt : ℚ
  bridgeWidth : ℚ
  bridgeHeight : ℚ
  bridgeY : ℚ

/-- The constant `config` of lines 2-13. -/
def config : Config where
  width := 800
  height := 600
  fps := 60
  gravity := 1
  jumpStrength := -20
  speed := 7
  playerRunTilt := 5
  bridgeWidth := 120
  bridgeHeight := 40
  bridgeY := 460

/-! ## Bridge (lines 135-155) -/

/-- A platform: the fields assigned by the `Bridge` constructor. -/
structure Bridge where
  x : ℚ
  y : ℚ
  width : ℚ
  height : ℚ
  deriving DecidableEq, Repr

/-- The code `new Bridge(x, y)` (lines 136-141). -/
def Bridge.new (x y : ℚ) : Bridge :=
  ⟨x, y, config.bridgeWidth, config.bridgeHeight⟩

/-- The method `Bridge.update` (lines 143-145): scroll left by `config.speed`. -/
def Bridge.update (b : Bridge) : Bridge :=
  { b with x := b.x - config.speed }

/-! ## Player (lines 50-110) -/

/-- The fields assigned by the `Player` constructor. -/
structure Player where
  width : ℚ
  height : ℚ
  x : ℚ
  y : ℚ
  velocityY : ℚ
  jumping : Bool
  onGround : Bool
  animationTimer : ℕ
  tilt : ℚ
  deriving DecidableEq, Repr

/-- The code `new Player()` (lines 51-61). -/
def Player.new : Player where
  width := 80
  height := 80
  x := 150
  y := 300
  velocityY := 0
  jumping := false
  onGround := false
  animationTimer := 0
  tilt := 0

/-- Lines 65-70: gravity is added, then the result is capped at 25.  This is the
velocity by which line 72 advances `y`. -/
def Player.fallVelocity (p : Player) : ℚ :=
  let v := p.velocityY + config.gravity
  if v > 25 then 25 else v

/-- Lines 65-87: gravity, terminal velocity, the move of `y`, the animation
counter, the tilt, and the reset of `onGround` that precedes the collision loop. -/
def Player.integrate (p : Player) : Player :=
  let v := p.fallVelocity
  let t := p.animationTimer + 1
  { p with
    velocityY := v
    y := p.y + v
    animationTimer := t
    tilt :=
      if p.onGround && !p.jumping then
        config.playerRunTilt + 2 * ((t % 10 : ℕ) : ℚ) / 10
      else if p.jumping && decide (v < 0) then
        -10
      else
        min 15 (|v| * (4 / 5))
    onGround := false }

/-- The condition of lines 90-93, evaluated on the player as it stands inside the
loop (after the move): horizontal overlap, bottom at or below the bridge top,
top above the bridge top. -/
def Player.landsOn (p : Player) (b : Bridge) : Bool :=
  decide (p.x + p.width > b.x) &&
  decide (p.x < b.x + b.width) &&
  decide (p.y + p.height ≥ b.y) &&
  decide (p.y < b.y)

/-- Lines 94-97: the assignments made on a hit. -/
def Player.snapTo (p : Player) (b : Bridge) : Player :=
  { p with y := b.y - p.height, velocityY := 0, jumping := false, onGround := true }

/-- The loop of lines 88-101 over the bridges in array order; it leaves at the
first hit (`break`). -/
def Player.collide (p : Player) : List Bridge → Player
  | [] => p
  | b :: rest =>
    if p.velocityY > 0 then
      if p.landsOn b then p.snapTo b else p.collide rest
    else p.collide rest

/-- The method `Player.update(bridges)` (lines 63-102). -/
def Player.update (p : Player) (bridges : List Bridge) : Player :=
  p.integrate.collide bridges

/-- The method `Player.jump()` (lines 104-110). -/
def Player.jump (p : Player) : Player :=
  if p.onGround then
    { p with velocityY := config.jumpStrength, jumping := true, onGround := false }
  else p

/-! ## Game state, `initGame` and `update` (lines 16-23, 213-286) -/

/-- The `gameState` object.  `player` is `null` in the source only before the
first `initGame()`, where `running` is false and `update` returns at once; it is
a `Player` here.  `gameOverShown` is not a field of the source object: it counts
the calls of `showGameOver()` (line 284, the game-over presentation), which the
source performs as a DOM effect. -/
structure GameState where
  running : Bool
  gameOver : Bool
  score : ℕ
  player : Player
  bridges : List Bridge
  assetsLoaded : Bool
  gameOverShown : ℕ
  deriving DecidableEq, Repr

/-- The two values that `Math.random()` returns to one call of `update`, in call
order (the second is read only where the source calls `Math.random()` again). -/
structure Draws where
  first : ℚ
  second : ℚ
  deriving DecidableEq, Repr

/-- A value that `Math.random()` can return: `0 ≤ r < 1`. -/
def Draws.valid (d : Draws) : Prop :=
  (0 ≤ d.first ∧ d.first < 1) ∧ (0 ≤ d.second ∧ d.second < 1)

instance (d : Draws) : Decidable d.valid := by
  unfold Draws.valid; infer_instance

/-- The function `initGame()` (lines 213-224); the audio call of lines 226-229 has
no effect on the state. -/
def initGame (g : GameState) : GameState :=
  { g with
    score := 0
    gameOver := false
    running := true
    player := Player.new
    bridges := (List.range 10).map fun i => Bridge.new ((i : ℚ) * config.bridgeWidth) config.bridgeY }

/-- Lines 240-241: `bridges.reduce((max, b) => b.x + b.width > max ? b.x + b.width : max, 0)`. -/
def rightmost (bridges : List Bridge) : ℚ :=
  bridges.foldl (fun max b => if b.x + b.width > max then b.x + b.width else max) 0

/-- Lines 246-252: the gap added to `rightmost`, an integer by `Math.floor`. -/
def spawnOffset (score : ℕ) (d : Draws) : ℤ :=
  if d.first < 1 / 4 ∧ score > 150 then
    ⌊d.second * (220 - 130 + 1)⌋ + 130
  else
    if score > 100 then ⌊d.second * 16⌋ else 0

/-- Lines 239-256: the spawn block, run with the score already incremented. -/
def spawn (score : ℕ) (bridges : List Bridge) (d : Draws) : List Bridge :=
  if bridges.length > 0 then
    let rm := rightmost bridges
    if rm < config.width + 200 then
      let newX := rm + (spawnOffset score d : ℚ)
      bridges ++ [Bridge.new newX config.bridgeY]
    else bridges
  else bridges

/-- The test returned by the `filter` callback (line 264). -/
def Bridge.visible (b : Bridge) : Bool :=
  decide (b.x + b.width > 0)

/-- Lines 262-265: `bridges.filter(...)`, whose callback moves the bridge it is
handed (line 263) and then keeps it when `x + width > 0` (line 264). -/
def updateBridges (bridges : List Bridge) : List Bridge :=
  bridges.filterMap fun b =>
    let moved := b.update
    if moved.visible then some moved else none

/-- The function `update()` (lines 233-286). -/
def update (g : GameState) (d : Draws) : GameState :=
  if !g.running || g.gameOver then g
  else
    let score := g.score + 1
    let bridges := spawn score g.bridges d
    let player := g.player.update bridges
    let bridges := updateBridges bridges
    if player.y > config.height then
      { g with
        score := score
        player := player
        bridges := bridges
        gameOver := true
        running := false
        gameOverShown := g.gameOverShown + 1 }
    else
      { g with score := score, player := player, bridges := bridges }

/-- The text written to the score display (line 318). -/
def scoreText (g : GameState) : String :=
  toString (g.score / 10) ++ "m"

/-- Successive calls of `update()`, one per element of `ds`. -/
def run (g : GameState) (ds : List Draws) : GameState :=
  ds.foldl update g

/-! ## States of the two end-to-end scenarios -/

/-- The state of `initGame()` with every bridge removed. -/
def bareSession (g : GameState) : GameState :=
  { initGame g with bridges := [] }

/-- The player after `k` ticks of free fall from `new Player()`: velocity `k`,
`y = 300 + k (k + 1) / 2`, tilt as set by the falling branch of line 83. -/
def freeFallPlayer (k : ℕ) : Player where
  width := 80
  height := 80
  x := 150
  y := 300 + (k : ℚ) * ((k : ℚ) + 1) / 2
  velocityY := k
  jumping := false
  onGround := false
  animationTimer := k
  tilt := if k = 0 then 0 else min 15 ((k : ℚ) * (4 / 5))

/-- The session `bareSession g` after `k` ticks of free fall, still running. -/
def freeFallSession (g : GameState) (k : ℕ) : GameState :=
  { bareSession g with score := k, player := freeFallPlayer k }

/-- The session `bareSession g` once the player has left the view on tick 25. -/
def fallenSession (g : GameState) : GameState :=
  { bareSession g with
    score := 25
    player := freeFallPlayer 25
    gameOver := true
    running := false
    gameOverShown := g.gameOverShown + 1 }

/-- Whether this call of `update()` runs the wide-gap branch (lines 247-248): the
tick is live, the spawn block is entered and the condition of line 246 holds. -/
def takesWideGap (g : GameState) (d : Draws) : Bool :=
  g.running && !g.gameOver &&
  decide (g.bridges.length > 0) &&
  decide (rightmost g.bridges < config.width + 200) &&
  (decide (d.first < 1 / 4) && decide (g.score + 1 > 150))

/-- No tick of the run `ds` from `g` takes the wide-gap branch. -/
def noWideGap : GameState → List Draws → Prop
  | _, [] => True
  | g, d :: ds => takesWideGap g d = false ∧ noWideGap (update g d) ds

/-- Every point of `[0, hi)` lies on a bridge or in the at most 15 wide strip in
front of one. -/
def Covered (bs : List Bridge) (hi : ℚ) : Prop :=
  ∀ t : ℚ, 0 ≤ t → t < hi → ∃ b ∈ bs, b.x - 15 ≤ t ∧ t < b.x + 120

/-- Bridges as the game builds them while no wide gap is taken: all at y = 460 and
120 wide, reaching at least to `lo`, without a hole wider than 15 in front. -/
def BridgesOk (bs : List Bridge) (lo : ℚ) : Prop :=
  (∀ b ∈ bs, b.y = 460 ∧ b.width = 120) ∧ lo ≤ rightmost bs ∧ Covered bs (rightmost bs)

/-- The invariant of a run without jump and without wide gap: the session is live,
the player is above or on the bridges and has either fallen at least `score`
below its start or rests on a bridge. -/
def SafeState (g : GameState) : Prop :=
  g.running = true ∧ g.gameOver = false ∧
  (g.player.x = 150 ∧ g.player.width = 80 ∧ g.player.height = 80) ∧
  g.player.y ≤ 380 ∧ 0 ≤ g.player.velocityY ∧
  (300 + (g.score : ℚ) ≤ g.player.y ∨
    (g.player.y = 380 ∧ g.player.velocityY = 0 ∧ g.player.onGround = true ∧
      g.player.jumping = false)) ∧
  BridgesOk g.bridges 993

/-! ## Concrete states used as examples -/

/-- A grounded player standing on the bridges of `initGame`. -/
def standingPlayer : Player :=
  { Player.new with y := 380, onGround := true }

/-- A player in mid-air, moving up. -/
def risingPlayer : Player :=
  { Player.new with y := 200, velocityY := -12, jumping := true }

/-- A player falling at 10 through a gap, whose bottom (480) is already below the
top (460) of the bridges while its top (400) is still above it. -/
def sunkPlayer : Player :=
  { Player.new with y := 400, velocityY := 10 }

/-- A player falling at 10 whose bottom (490) is 30 below the bridge top 460 and
whose top after the move (421) is still above it. -/
def deepPlayer : Player :=
  { Player.new with y := 410, velocityY := 10 }

/-- Three bridges, the first of which leaves the view on the next tick. -/
def scrollingBridges : List Bridge :=
  [Bridge.new (-115) 460, Bridge.new 5 460, Bridge.new 125 460]

/-- A high bridge (top 100) listed before a lower one (top 115), both under the
player's horizontal extent. -/
def stackedBridges : List Bridge :=
  [Bridge.new 100 100, Bridge.new 100 115]

/-- A player falling at 9 with its bottom at 110: below the top of the first of
`stackedBridges`, above the top of the second. -/
def droppingPlayer : Player :=
  { Player.new with y := 30, velocityY := 9 }

/-- A running session without any bridge. -/
def emptySession : GameState where
  running := true
  gameOver := false
  score := 0
  player := Player.new
  bridges := []
  assetsLoaded := true
  gameOverShown := 0

/-- A running session at score 199 whose only bridge ends at 620. -/
def lateSession : GameState where
  running := true
  gameOver := false
  score := 199
  player := standingPlayer
  bridges := [Bridge.new 500 460]
  assetsLoaded := true
  gameOverShown := 0

/-- A running session whose player (y = 590, falling at 24) leaves the view on
the next tick. -/
def fallingSession : GameState where
  running := true
  gameOver := false
  score := 40
  player := { Player.new with y := 590, velocityY := 24 }
  bridges := []
  assetsLoaded := true
  gameOverShown := 0

/-- A pair of draws that never selects the wide gap. -/
def calmDraws : Draws := ⟨1 / 2, 1 / 2⟩

/-- A pair of draws that selects the wide gap once the score exceeds 150. -/
def wideDraws : Draws := ⟨1 / 8, 1 / 2⟩

/-! ## Lemmas on the collision loop -/

theorem collide_of_not_falling (q : Player) (bs : List Bridge)
    (h : ¬ q.velocityY > 0) : q.collide bs = q := by
  induction bs with
  | nil => rfl
  | cons b rest ih => simp [Player.collide, h, ih]

theorem collide_of_none (q : Player) (bs : List Bridge)
    (h : ∀ c ∈ bs, q.landsOn c = false) : q.collide bs = q := by
  induction bs with
  | nil => rfl
  | cons b rest ih =>
    have hb : q.landsOn b = false := h b (List.mem_cons_self _ _)
    have hr : q.collide rest = q := ih fun c hc => h c (List.mem_cons_of_mem _ hc)
    simp [Player.collide, hb, hr]

theorem collide_first (q : Player) (pre : List Bridge) (b : Bridge) (post : List Bridge)
    (hv : q.velocityY > 0) (hpre : ∀ c ∈ pre, q.landsOn c = false)
    (hb : q.landsOn b = true) : q.collide (pre ++ b :: post) = q.snapTo b := by
  induction pre with
  | nil => simp [Player.collide, hv, hb]
  | cons c rest ih =>
    have hc : q.landsOn c = false := hpre c (List.mem_cons_self _ _)
    have hr := ih fun c hc => hpre c (List.mem_cons_of_mem _ hc)
    simp [Player.collide, hv, hc, hr]

/-- The loop either changes nothing, or snaps to the first bridge that passes the
test of lines 90-93. -/
theorem collide_cases (q : Player) (bs : List Bridge) :
    (q.collide bs = q ∧ (¬ q.velocityY > 0 ∨ ∀ c ∈ bs, q.landsOn c = false)) ∨
    (q.velocityY > 0 ∧ ∃ pre b post, bs = pre ++ b :: post ∧
      (∀ c ∈ pre, q.landsOn c = false) ∧ q.landsOn b = true ∧
      q.collide bs = q.snapTo b) := by
  by_cases hv : q.velocityY > 0
  · induction bs with
    | nil => exact Or.inl ⟨rfl, Or.inr (by simp)⟩
    | cons b rest ih =>
      by_cases hb : q.landsOn b = true
      · exact Or.inr ⟨hv, [], b, rest, rfl, by simp, hb, by simp [Player.collide, hv, hb]⟩
      · have hb' : q.landsOn b = false := by simpa using hb
        rcases ih with ⟨h1, h2⟩ | ⟨_, pre, f, post, h1, h2, h3, h4⟩
        · refine Or.inl ⟨by simp [Player.collide, hv, hb', h1], Or.inr ?_⟩
          rcases h2 with h2 | h2
          · exact absurd hv h2
          · intro c hc
            rcases List.mem_cons.1 hc with rfl | hc
            · exact hb'
            · exact h2 c hc
        · refine Or.inr ⟨hv, b :: pre, f, post, by simp [h1], ?_, h3, ?_⟩
          · intro c hc
            rcases List.mem_cons.1 hc with rfl | hc
            · exact hb'
            · exact h2 c hc
          · simp [Player.collide, hv, hb', h4]
  · exact Or.inl ⟨collide_of_not_falling q bs hv, Or.inl hv⟩

theorem landsOn_iff (q : Player) (b : Bridge) :
    q.landsOn b = true ↔
      (q.x + q.width > b.x ∧ q.x < b.x + b.width) ∧ (q.y + q.height ≥ b.y ∧ q.y < b.y) := by
  simp [Player.landsOn, and_assoc]

/-- The test of lines 90-93 on the moved player, in terms of the player before the
move: horizontal overlap, top after the move above the bridge top, bottom after
the move at or below it. -/
theorem landsOn_integrate_iff (p : Player) (b : Bridge) :
    p.integrate.landsOn b = true ↔
      ((p.x + p.width > b.x ∧ p.x < b.x + b.width) ∧
        p.y + p.fallVelocity < b.y ∧ b.y ≤ p.y + p.fallVelocity + p.height) := by
  rw [landsOn_iff]
  constructor
  · rintro ⟨h1, h2, h3⟩
    exact ⟨h1, h3, h2⟩
  · rintro ⟨h1, h2, h3⟩
    exact ⟨h1, h3, h2⟩

theorem fallVelocity_le (p : Player) : p.fallVelocity ≤ 25 := by
  unfold Player.fallVelocity
  simp only
  split_ifs with h
  · exact le_refl _
  · exact not_lt.1 h

theorem fallVelocity_eq (p : Player) (h : p.velocityY + 1 ≤ 25) :
    p.fallVelocity = p.velocityY + 1 := by
  unfold Player.fallVelocity
  simp only [config]
  rw [if_neg (not_lt.2 h)]

theorem updateBridges_eq (bs : List Bridge) :
    updateBridges bs = (bs.map Bridge.update).filter Bridge.visible := by
  induction bs with
  | nil => rfl
  | cons b rest ih =>
    have h : updateBridges (b :: rest) =
        if b.update.visible then b.update :: updateBridges rest else updateBridges rest := by
      by_cases hb : b.update.visible = true <;> simp [updateBridges, List.filterMap_cons, hb]
    rw [h, ih]
    by_cases hb : b.update.visible = true <;> simp [hb]

/-! ## Lemmas on `rightmost` and the spawn block -/

theorem foldl_edge_ge_acc (bs : List Bridge) (acc : ℚ) :
    acc ≤ bs.foldl (fun max b => if b.x + b.width > max then b.x + b.width else max) acc := by
  induction bs generalizing acc with
  | nil => exact le_refl _
  | cons b rest ih =>
    rw [List.foldl_cons]
    refine le_trans ?_ (ih _)
    split_ifs with h
    · exact le_of_lt h
    · exact le_refl _

theorem foldl_edge_ge_mem (bs : List Bridge) (acc : ℚ) (b : Bridge) (hb : b ∈ bs) :
    b.x + b.width ≤
      bs.foldl (fun max b => if b.x + b.width > max then b.x + b.width else max) acc := by
  induction bs generalizing acc with
  | nil => exact absurd hb (List.not_mem_nil _)
  | cons c rest ih =>
    rw [List.foldl_cons]
    rcases List.mem_cons.1 hb with rfl | hb
    · refine le_trans ?_ (foldl_edge_ge_acc rest _)
      split_ifs with h
      · exact le_refl _
      · exact not_lt.1 h
    · exact ih _ hb

theorem foldl_edge_cases (bs : List Bridge) (acc : ℚ) :
    bs.foldl (fun max b => if b.x + b.width > max then b.x + b.width else max) acc = acc ∨
    ∃ b ∈ bs,
      bs.foldl (fun max b => if b.x + b.width > max then b.x + b.width else max) acc =
        b.x + b.width := by
  induction bs generalizing acc with
  | nil => exact Or.inl rfl
  | cons c rest ih =>
    rw [List.foldl_cons]
    rcases ih (if c.x + c.width > acc then c.x + c.width else acc) with h | ⟨b, hb, h⟩
    · rw [h]
      split_ifs with hc
      · exact Or.inr ⟨c, List.mem_cons_self _ _, rfl⟩
      · exact Or.inl rfl
    · exact Or.inr ⟨b, List.mem_cons_of_mem _ hb, h⟩

theorem rightmost_nonneg (bs : List Bridge) : 0 ≤ rightmost bs :=
  foldl_edge_ge_acc bs 0

theorem rightmost_ge_mem (bs : List Bridge) (b : Bridge) (hb : b ∈ bs) :
    b.x + b.width ≤ rightmost bs :=
  foldl_edge_ge_mem bs 0 b hb

theorem rightmost_cases (bs : List Bridge) :
    rightmost bs = 0 ∨ ∃ b ∈ bs, rightmost bs = b.x + b.width :=
  foldl_edge_cases bs 0

/-- The value of the `reduce` is below a positive bound exactly when every
trailing edge is. -/
theorem rightmost_lt_iff (bs : List Bridge) (c : ℚ) (hc : 0 < c) :
    rightmost bs < c ↔ ∀ b ∈ bs, b.x + b.width < c := by
  constructor
  · intro h b hb
    exact lt_of_le_of_lt (rightmost_ge_mem bs b hb) h
  · intro h
    rcases rightmost_cases bs with h0 | ⟨b, hb, hb'⟩
    · rw [h0]; exact hc
    · rw [hb']; exact h b hb

theorem rightmost_append (bs : List Bridge) (b : Bridge) :
    rightmost (bs ++ [b]) = max (rightmost bs) (b.x + b.width) := by
  unfold rightmost
  rw [List.foldl_append, List.foldl_cons, List.foldl_nil]
  split_ifs with h
  · exact (max_eq_right (le_of_lt h)).symm
  · exact (max_eq_left (not_lt.1 h)).symm

theorem spawnOffset_bounds (s : ℕ) (d : Draws) (hd : d.valid) :
    (s ≤ 100 → spawnOffset s d = 0) ∧
    (100 < s → s ≤ 150 → 0 ≤ spawnOffset s d ∧ spawnOffset s d < 16) ∧
    (150 < s →
      (d.first < 1 / 4 → 130 ≤ spawnOffset s d ∧ spawnOffset s d ≤ 220) ∧
      (¬ d.first < 1 / 4 → 0 ≤ spawnOffset s d ∧ spawnOffset s d < 16)) ∧
    0 ≤ spawnOffset s d := by
  obtain ⟨_, h0, h1⟩ := hd
  have hsmall : 0 ≤ ⌊d.second * 16⌋ ∧ ⌊d.second * 16⌋ < 16 := by
    constructor
    · exact Int.floor_nonneg.2 (by positivity)
    · rw [Int.floor_lt]; push_cast; linarith
  have hwide : 0 ≤ ⌊d.second * (220 - 130 + 1)⌋ ∧ ⌊d.second * (220 - 130 + 1)⌋ < 91 := by
    constructor
    · exact Int.floor_nonneg.2 (by norm_num; exact h0)
    · rw [Int.floor_lt]; push_cast; linarith
  refine ⟨?_, ?_, ?_, ?_⟩
  · intro hs
    have h1 : ¬ s > 150 := by omega
    have h2 : ¬ s > 100 := by omega
    simp [spawnOffset, h1, h2]
  · intro hs hs'
    have h1 : ¬ s > 150 := by omega
    simp only [spawnOffset, h1, and_false, if_false, gt_iff_lt, hs, if_true]
    exact hsmall
  · intro hs
    have h2 : s > 100 := by omega
    constructor
    · intro hf
      simp only [spawnOffset, hf, hs, gt_iff_lt, and_self, if_true]
      omega
    · intro hf
      simp only [spawnOffset, hf, false_and, if_false, gt_iff_lt, h2, if_true]
      exact hsmall
  · unfold spawnOffset
    split_ifs <;> omega

theorem spawn_of_trigger (s : ℕ) (bs : List Bridge) (d : Draws)
    (hne : bs ≠ []) (hrm : rightmost bs < 1000) :
    spawn s bs d = bs ++ [Bridge.new (rightmost bs + (spawnOffset s d : ℚ)) 460] := by
  have hlen : bs.length > 0 := List.length_pos.2 hne
  have hc : config.width + 200 = 1000 := by norm_num [config]
  have hy : config.bridgeY = 460 := rfl
  simp only [spawn, hlen, hc, hrm, hy, if_true]

theorem spawn_of_no_trigger (s : ℕ) (bs : List Bridge) (d : Draws)
    (h : bs = [] ∨ ¬ rightmost bs < 1000) : spawn s bs d = bs := by
  rcases h with h | h
  · subst h; rfl
  · have hc : config.width + 200 = 1000 := by norm_num [config]
    simp only [spawn, hc, h, if_false, ite_self]

theorem update_frozen (g : GameState) (d : Draws)
    (h : g.gameOver = true ∨ g.running = false) : update g d = g := by
  rcases h with h | h <;> simp [update, h]

theorem update_live (g : GameState) (d : Draws)
    (hrun : g.running = true) (hover : g.gameOver = false) :
    update g d =
      if (g.player.update (spawn (g.score + 1) g.bridges d)).y > 600 then
        { g with
          score := g.score + 1
          player := g.player.update (spawn (g.score + 1) g.bridges d)
          bridges := updateBridges (spawn (g.score + 1) g.bridges d)
          gameOver := true
          running := false
          gameOverShown := g.gameOverShown + 1 }
      else
        { g with
          score := g.score + 1
          player := g.player.update (spawn (g.score + 1) g.bridges d)
          bridges := updateBridges (spawn (g.score + 1) g.bridges d) } := by
  simp [update, hrun, hover, config]

theorem run_frozen (g : GameState) (ds : List Draws)
    (h : g.gameOver = true ∨ g.running = false) : run g ds = g := by
  induction ds with
  | nil => rfl
  | cons d rest ih =>
    show run (update g d) rest = g
    rw [update_frozen g d h]
    exact ih

theorem run_cons (g : GameState) (d : Draws) (ds : List Draws) :
    run g (d :: ds) = run (update g d) ds := rfl

theorem run_append (g : GameState) (ds es : List Draws) :
    run g (ds ++ es) = run (run g ds) es := by
  simp [run, List.foldl_append]

theorem update_shown (g : GameState) (d : Draws) (hover : g.gameOver = false) :
    (update g d).gameOverShown =
      g.gameOverShown + if (update g d).gameOver = true then 1 else 0 := by
  by_cases hrun : g.running = true
  · rw [update_live g d hrun hover]
    split_ifs <;> simp_all
  · have hr : g.running = false := by simpa using hrun
    rw [update_frozen g d (Or.inr hr)]
    simp [hover]

theorem run_shown (g : GameState) (ds : List Draws) (hover : g.gameOver = false) :
    (run g ds).gameOverShown =
      g.gameOverShown + if (run g ds).gameOver = true then 1 else 0 := by
  induction ds generalizing g with
  | nil => simp [run, hover]
  | cons d rest ih =>
    rw [run_cons]
    have h1 := update_shown g d hover
    by_cases ho : (update g d).gameOver = true
    · rw [run_frozen (update g d) rest (Or.inl ho), h1]
    · have ho' : (update g d).gameOver = false := by simpa using ho
      rw [ih (update g d) ho', h1]
      simp [ho']

/-! ## Free fall without bridges -/

theorem freeFall_zero (g : GameState) : freeFallSession g 0 = bareSession g := by
  simp [freeFallSession, bareSession, freeFallPlayer, initGame, Player.new]

theorem freeFall_update (k : ℕ) (hk : k ≤ 24) :
    (freeFallPlayer k).update [] = freeFallPlayer (k + 1) := by
  have hk' : (k : ℚ) ≤ 24 := by exact_mod_cast hk
  have hv : (freeFallPlayer k).fallVelocity = (k : ℚ) + 1 := by
    apply fallVelocity_eq
    show (k : ℚ) + 1 ≤ 25
    linarith
  have habs : |(k : ℚ) + 1| = (k : ℚ) + 1 := abs_of_nonneg (by positivity)
  simp only [Player.update, Player.collide, Player.integrate, hv, habs]
  simp [freeFallPlayer]
  ring

theorem freeFall_y_le (k : ℕ) (hk : k ≤ 24) : (freeFallPlayer k).y ≤ 600 := by
  have hk' : (k : ℚ) ≤ 24 := by exact_mod_cast hk
  have h0 : (0 : ℚ) ≤ k := by positivity
  show 300 + (k : ℚ) * ((k : ℚ) + 1) / 2 ≤ 600
  nlinarith

theorem freeFall_step (g : GameState) (d : Draws) (k : ℕ) (hk : k < 24) :
    update (freeFallSession g k) d = freeFallSession g (k + 1) := by
  have hy := freeFall_y_le (k + 1) (by omega)
  rw [update_live _ d rfl rfl]
  have hp : (freeFallSession g k).player.update
      (spawn ((freeFallSession g k).score + 1) (freeFallSession g k).bridges d) =
      freeFallPlayer (k + 1) := freeFall_update k (by omega)
  rw [hp, if_neg (not_lt.2 hy)]
  rfl

theorem freeFall_last (g : GameState) (d : Draws) :
    update (freeFallSession g 24) d = fallenSession g := by
  rw [update_live _ d rfl rfl]
  have hp : (freeFallSession g 24).player.update
      (spawn ((freeFallSession g 24).score + 1) (freeFallSession g 24).bridges d) =
      freeFallPlayer 25 := freeFall_update 24 (le_refl _)
  have hy : (freeFallPlayer 25).y > 600 := by norm_num [freeFallPlayer]
  rw [hp, if_pos hy]
  rfl

theorem freeFall_run (g : GameState) (ds : List Draws) (k : ℕ) (hk : k ≤ 24) :
    run (freeFallSession g k) ds =
      if k + ds.length ≤ 24 then freeFallSession g (k + ds.length) else fallenSession g := by
  induction ds generalizing k with
  | nil => simp [run, hk]
  | cons d rest ih =>
    rw [run_cons, List.length_cons]
    rcases Nat.lt_or_ge k 24 with h | h
    · rw [freeFall_step g d k h, ih (k + 1) (by omega)]
      by_cases h' : k + 1 + rest.length ≤ 24
      · rw [if_pos h', if_pos (by omega)]
        congr 1
        omega
      · rw [if_neg h', if_neg (by omega)]
    · have hk24 : k = 24 := by omega
      subst hk24
      rw [freeFall_last, run_frozen _ _ (Or.inl rfl), if_neg (by omega)]

/-! ## The invariant of a run without wide gap -/

theorem fallVelocity_ge (p : Player) (h : 0 ≤ p.velocityY) : 1 ≤ p.fallVelocity := by
  unfold Player.fallVelocity
  simp only [config]
  split_ifs <;> linarith

theorem spawnOffset_small (s : ℕ) (d : Draws) (hd : d.valid)
    (h : ¬ (d.first < 1 / 4 ∧ s > 150)) :
    0 ≤ spawnOffset s d ∧ spawnOffset s d ≤ 15 := by
  obtain ⟨h1, h2, h3, h4⟩ := spawnOffset_bounds s d hd
  refine ⟨h4, ?_⟩
  rcases Nat.lt_or_ge 100 s with hs | hs
  · rcases Nat.lt_or_ge 150 s with hs' | hs'
    · have hf : ¬ d.first < 1 / 4 := fun hf => h ⟨hf, hs'⟩
      have := ((h3 hs').2 hf).2
      omega
    · have := (h2 hs hs').2
      omega
  · rw [h1 hs]
    norm_num

theorem mem_updateBridges (bs : List Bridge) (c : Bridge) :
    c ∈ updateBridges bs ↔ (∃ b ∈ bs, b.update = c) ∧ c.visible = true := by
  rw [updateBridges_eq, List.mem_filter, List.mem_map]

theorem bridgesOk_spawn (s : ℕ) (bs : List Bridge) (d : Draws) (hd : d.valid)
    (hgap : ¬ (bs ≠ [] ∧ rightmost bs < 1000 ∧ d.first < 1 / 4 ∧ s > 150))
    (h : BridgesOk bs 993) : BridgesOk (spawn s bs d) 1000 := by
  obtain ⟨hshape, hlo, hcov⟩ := h
  by_cases hrm : rightmost bs < 1000
  · have hne : bs ≠ [] := by
      intro he
      subst he
      have : (993 : ℚ) ≤ 0 := hlo
      norm_num at this
    obtain ⟨ho0, ho1⟩ := spawnOffset_small s d hd fun hh => hgap ⟨hne, hrm, hh.1, hh.2⟩
    have ho0' : (0 : ℚ) ≤ (spawnOffset s d : ℚ) := by exact_mod_cast ho0
    have ho1' : (spawnOffset s d : ℚ) ≤ 15 := by exact_mod_cast ho1
    have hrmost : rightmost (bs ++ [Bridge.new (rightmost bs + (spawnOffset s d : ℚ)) 460]) =
        rightmost bs + (spawnOffset s d : ℚ) + 120 := by
      rw [rightmost_append]
      show max (rightmost bs) (rightmost bs + (spawnOffset s d : ℚ) + 120) = _
      exact max_eq_right (by linarith)
    rw [spawn_of_trigger s bs d hne hrm]
    refine ⟨?_, ?_, ?_⟩
    · intro b hb
      rcases List.mem_append.1 hb with hb | hb
      · exact hshape b hb
      · rw [List.mem_singleton.1 hb]
        exact ⟨rfl, rfl⟩
    · rw [hrmost]
      linarith
    · rw [hrmost]
      intro t h0 h1
      by_cases ht : t < rightmost bs
      · obtain ⟨b, hb, hb1, hb2⟩ := hcov t h0 ht
        exact ⟨b, List.mem_append_left _ hb, hb1, hb2⟩
      · refine ⟨_, List.mem_append_right _ (List.mem_singleton_self _), ?_, ?_⟩
        · show rightmost bs + (spawnOffset s d : ℚ) - 15 ≤ t
          linarith [not_lt.1 ht]
        · show t < rightmost bs + (spawnOffset s d : ℚ) + 120
          exact h1
  · rw [spawn_of_no_trigger s bs d (Or.inr hrm)]
    exact ⟨hshape, not_lt.1 hrm, hcov⟩

theorem bridgesOk_updateBridges (bs : List Bridge) (h : BridgesOk bs 1000) :
    BridgesOk (updateBridges bs) 993 := by
  obtain ⟨hshape, hlo, hcov⟩ := h
  have hupper : rightmost (updateBridges bs) ≤ rightmost bs - 7 := by
    rcases rightmost_cases (updateBridges bs) with h0 | ⟨c, hc, hc'⟩
    · rw [h0]; linarith
    · obtain ⟨⟨b, hb, rfl⟩, _⟩ := (mem_updateBridges bs c).1 hc
      rw [hc']
      have := rightmost_ge_mem bs b hb
      show b.x - 7 + b.width ≤ rightmost bs - 7
      linarith
  have hlower : rightmost bs - 7 ≤ rightmost (updateBridges bs) := by
    rcases rightmost_cases bs with h0 | ⟨b, hb, hb'⟩
    · rw [h0] at hlo; norm_num at hlo
    · have hvis : b.update.visible = true := by
        simp only [Bridge.visible, Bridge.update, config, decide_eq_true_eq]
        linarith
      have hmem : b.update ∈ updateBridges bs := (mem_updateBridges bs _).2 ⟨⟨b, hb, rfl⟩, hvis⟩
      have := rightmost_ge_mem _ _ hmem
      have he : b.update.x + b.update.width = b.x - 7 + b.width := rfl
      linarith
  refine ⟨?_, by linarith, ?_⟩
  · intro c hc
    obtain ⟨⟨b, hb, rfl⟩, _⟩ := (mem_updateBridges bs c).1 hc
    exact hshape b hb
  · intro t h0 h1
    obtain ⟨b, hb, hb1, hb2⟩ := hcov (t + 7) (by linarith) (by linarith)
    have hw := (hshape b hb).2
    have hvis : b.update.visible = true := by
      simp only [Bridge.visible, Bridge.update, config, decide_eq_true_eq]
      linarith
    refine ⟨b.update, (mem_updateBridges bs _).2 ⟨⟨b, hb, rfl⟩, hvis⟩, ?_, ?_⟩
    · show b.x - 7 - 15 ≤ t
      linarith
    · show t < b.x - 7 + 120
      linarith

theorem safe_player_step (p : Player) (bs : List Bridge) (n : ℕ)
    (hsz : p.x = 150 ∧ p.width = 80 ∧ p.height = 80) (hy : p.y ≤ 380)
    (hv : 0 ≤ p.velocityY)
    (hst : 300 + (n : ℚ) ≤ p.y ∨
      (p.y = 380 ∧ p.velocityY = 0 ∧ p.onGround = true ∧ p.jumping = false))
    (hbs : BridgesOk bs 1000) :
    ((p.update bs).x = 150 ∧ (p.update bs).width = 80 ∧ (p.update bs).height = 80) ∧
    (p.update bs).y ≤ 380 ∧ 0 ≤ (p.update bs).velocityY ∧
    (300 + ((n + 1 : ℕ) : ℚ) ≤ (p.update bs).y ∨
      ((p.update bs).y = 380 ∧ (p.update bs).velocityY = 0 ∧
        (p.update bs).onGround = true ∧ (p.update bs).jumping = false)) := by
  obtain ⟨hx, hw, hh⟩ := hsz
  obtain ⟨hshape, hlo, hcov⟩ := hbs
  have hf1 := fallVelocity_ge p hv
  have hf2 := fallVelocity_le p
  have qx : p.integrate.x = p.x := rfl
  have qw : p.integrate.width = p.width := rfl
  have qh : p.integrate.height = p.height := rfl
  have qy : p.integrate.y = p.y + p.fallVelocity := rfl
  have qv : p.integrate.velocityY = p.fallVelocity := rfl
  obtain ⟨b, hb, hb1, hb2⟩ := hcov 150 (by norm_num) (by linarith)
  obtain ⟨hby, hbw⟩ := hshape b hb
  rcases collide_cases p.integrate bs with ⟨heq, hor⟩ | ⟨_, pre, f, post, hsplit, _, _, heq⟩
  · have hfail : p.integrate.landsOn b = false := by
      rcases hor with hnv | hall
      · exact absurd (by rw [qv]; linarith) hnv
      · exact hall b hb
    have hnot : ¬ (p.integrate.y + p.integrate.height ≥ b.y) := by
      intro hge
      have : p.integrate.landsOn b = true := by
        rw [landsOn_iff, qx, qw, qy, qh, hx, hw, hh, hby, hbw]
        rw [qy, qh, hh, hby] at hge
        refine ⟨⟨by linarith, by linarith⟩, hge, by linarith⟩
      rw [hfail] at this
      exact absurd this (by simp)
    rw [qy, qh, hh, hby] at hnot
    rw [Player.update, heq, qx, qw, qh, qy, qv]
    refine ⟨⟨hx, hw, hh⟩, by linarith, by linarith, ?_⟩
    rcases hst with hst | ⟨hst, _⟩
    · left
      push_cast
      linarith
    · exfalso
      apply hnot
      linarith
  · have hfmem : f ∈ bs := by
      rw [hsplit]
      exact List.mem_append_right _ (List.mem_cons_self _ _)
    have hfy := (hshape f hfmem).1
    rw [Player.update, heq]
    have sy : (p.integrate.snapTo f).y = f.y - p.integrate.height := rfl
    have hy380 : (p.integrate.snapTo f).y = 380 := by
      rw [sy, qh, hh, hfy]; norm_num
    refine ⟨⟨hx, hw, hh⟩, le_of_eq hy380, le_of_eq rfl, Or.inr ⟨hy380, rfl, rfl, rfl⟩⟩

theorem safe_step (g : GameState) (d : Draws) (hd : d.valid)
    (hgap : takesWideGap g d = false) (h : SafeState g) :
    SafeState (update g d) ∧ (update g d).score = g.score + 1 := by
  obtain ⟨hrun, hover, hsz, hy, hv, hst, hbs⟩ := h
  have hgap' : ¬ (g.bridges ≠ [] ∧ rightmost g.bridges < 1000 ∧ d.first < 1 / 4 ∧
      g.score + 1 > 150) := by
    rintro ⟨h1, h2, h3, h4⟩
    have hlen : g.bridges.length > 0 := List.length_pos.2 h1
    have hc : config.width + 200 = 1000 := by norm_num [config]
    have : takesWideGap g d = true := by
      simp only [takesWideGap, hrun, hover, hlen, hc, h2, h3, h4, decide_True, Bool.not_false,
        Bool.and_self]
    rw [hgap] at this
    exact absurd this (by simp)
  have hbs1 := bridgesOk_spawn (g.score + 1) g.bridges d hd hgap' hbs
  have hpl := safe_player_step g.player (spawn (g.score + 1) g.bridges d) g.score hsz hy hv
    hst hbs1
  have hbs2 := bridgesOk_updateBridges _ hbs1
  have hnot : ¬ (g.player.update (spawn (g.score + 1) g.bridges d)).y > 600 := by
    have := hpl.2.1
    intro hgt
    linarith
  rw [update_live g d hrun hover, if_neg hnot]
  exact ⟨⟨hrun, hover, hpl.1, hpl.2.1, hpl.2.2.1, hpl.2.2.2, hbs2⟩, rfl⟩

theorem safe_run (g : GameState) (ds : List Draws) (hvalid : ∀ d ∈ ds, d.valid)
    (hgap : noWideGap g ds) (h : SafeState g) :
    SafeState (run g ds) ∧ (run g ds).score = g.score + ds.length := by
  induction ds generalizing g with
  | nil => exact ⟨h, rfl⟩
  | cons d rest ih =>
    obtain ⟨hg1, hg2⟩ := hgap
    obtain ⟨hs, hsc⟩ := safe_step g d (hvalid d (List.mem_cons_self _ _)) hg1 h
    obtain ⟨hs', hsc'⟩ := ih (update g d) (fun e he => hvalid e (List.mem_cons_of_mem _ he))
      hg2 hs
    rw [run_cons]
    refine ⟨hs', ?_⟩
    rw [hsc', hsc, List.length_cons]
    omega

theorem initGame_bridges_mem (g : GameState) (b : Bridge) :
    b ∈ (initGame g).bridges ↔ ∃ i : ℕ, i < 10 ∧ Bridge.new ((i : ℚ) * 120) 460 = b := by
  have hdef : (initGame g).bridges =
      (List.range 10).map fun i : ℕ => Bridge.new ((i : ℚ) * 120) 460 := rfl
  rw [hdef, List.mem_map]
  constructor
  · rintro ⟨i, hi, rfl⟩
    exact ⟨i, List.mem_range.1 hi, rfl⟩
  · rintro ⟨i, hi, rfl⟩
    exact ⟨i, List.mem_range.2 hi, rfl⟩

theorem initGame_rightmost (g : GameState) : rightmost (initGame g).bridges = 1200 := by
  apply le_antisymm
  · rcases rightmost_cases (initGame g).bridges with h0 | ⟨b, hb, hb'⟩
    · rw [h0]; norm_num
    · obtain ⟨i, hi, rfl⟩ := (initGame_bridges_mem g b).1 hb
      rw [hb']
      have : (i : ℚ) ≤ 9 := by exact_mod_cast Nat.le_of_lt_succ hi
      show (i : ℚ) * 120 + 120 ≤ 1200
      linarith
  · have hmem : Bridge.new ((9 : ℕ) * 120) 460 ∈ (initGame g).bridges :=
      (initGame_bridges_mem g _).2 ⟨9, by norm_num, rfl⟩
    have := rightmost_ge_mem _ _ hmem
    have he : (Bridge.new ((9 : ℕ) * 120) 460).x + (Bridge.new ((9 : ℕ) * 120) 460).width =
        ((9 : ℕ) : ℚ) * 120 + 120 := rfl
    rw [he] at this
    norm_num at this
    exact this

theorem safe_init (g : GameState) : SafeState (initGame g) := by
  refine ⟨rfl, rfl, ⟨rfl, rfl, rfl⟩, ?_, le_refl _, Or.inl ?_, ?_, ?_, ?_⟩
  · show (300 : ℚ) ≤ 380
    norm_num
  · show 300 + ((0 : ℕ) : ℚ) ≤ 300
    norm_num
  · intro b hb
    obtain ⟨i, _, rfl⟩ := (initGame_bridges_mem g b).1 hb
    exact ⟨rfl, rfl⟩
  · rw [initGame_rightmost]; norm_num
  · rw [initGame_rightmost]
    intro t h0 h1
    have hq : 0 ≤ t / 120 := by positivity
    refine ⟨Bridge.new ((⌊t / 120⌋₊ : ℕ) * 120) 460,
      (initGame_bridges_mem g _).2 ⟨⌊t / 120⌋₊, ?_, rfl⟩, ?_, ?_⟩
    · rw [Nat.floor_lt hq]
      push_cast
      linarith
    · have := Nat.floor_le hq
      show (⌊t / 120⌋₊ : ℚ) * 120 - 15 ≤ t
      linarith
    · have := Nat.lt_floor_add_one (t / 120)
      show t < (⌊t / 120⌋₊ : ℚ) * 120 + 120
      linarith

theorem noWideGap_of_first (g : GameState) (ds : List Draws)
    (h : ∀ d ∈ ds, ¬ d.first < 1 / 4) : noWideGap g ds := by
  induction ds generalizing g with
  | nil => trivial
  | cons d rest ih =>
    refine ⟨?_, ih _ fun e he => h e (List.mem_cons_of_mem _ he)⟩
    have hd := h d (List.mem_cons_self _ _)
    simp only [takesWideGap, hd, decide_False, Bool.false_and, Bool.and_false]

/-! ## Claims -/

/-- C8 (jump contract): `jump()` on an airborne player (`onGround == false`)
returns the player unchanged in every field; on a grounded player it sets
`velocityY` to the impulse -20, `jumping` to true, `onGround` to false and
leaves `width`, `height`, `x`, `y`, `animationTimer` and `tilt` as they were. -/
theorem jump_contract (p : Player) :
    (p.onGround = false → p.jump = p) ∧
    (p.onGround = true →
      p.jump = ⟨p.width, p.height, p.x, p.y, -20, true, false, p.animationTimer, p.tilt⟩) := by
  constructor
  · intro h
    simp [Player.jump, h]
  · intro h
    simp [Player.jump, h, config]

/-- Witness of C8 at a grounded and at an airborne player. -/
theorem jump_contract_witness :
    (risingPlayer.onGround = false ∧ risingPlayer.jump = risingPlayer) ∧
    (standingPlayer.onGround = true ∧ standingPlayer.jump.velocityY = -20 ∧
      standingPlayer.jump.jumping = true ∧ standingPlayer.jump.onGround = false ∧
      standingPlayer.jump.y = 380) :=
  ⟨⟨rfl, (jump_contract risingPlayer).1 rfl⟩,
   ⟨rfl, by rw [(jump_contract standingPlayer).2 rfl],
    by rw [(jump_contract standingPlayer).2 rfl],
    by rw [(jump_contract standingPlayer).2 rfl],
    by rw [(jump_contract standingPlayer).2 rfl]; rfl⟩⟩

/-- C9 (terminal velocity): whatever the prior `velocityY` and the bridges, the
velocity by which `Player.update` advances `y` is at most 25, the `velocityY`
stored after `Player.update` is at most 25, and `y` grows by at most 25. -/
theorem terminal_velocity (p : Player) (bridges : List Bridge) :
    p.fallVelocity ≤ 25 ∧
    p.integrate.y = p.y + p.fallVelocity ∧
    (p.update bridges).velocityY ≤ 25 ∧
    (p.update bridges).y ≤ p.y + 25 := by
  have hv := fallVelocity_le p
  refine ⟨hv, rfl, ?_, ?_⟩
  · rcases collide_cases p.integrate bridges with ⟨h, _⟩ | ⟨_, pre, b, post, _, _, _, h⟩
    · rw [Player.update, h]; exact hv
    · rw [Player.update, h]; simp [Player.snapTo]
  · rcases collide_cases p.integrate bridges with ⟨h, _⟩ | ⟨_, pre, b, post, _, _, hb, h⟩
    · rw [Player.update, h]
      show p.y + p.fallVelocity ≤ p.y + 25
      linarith
    · rw [Player.update, h]
      have := ((landsOn_iff _ _).1 hb).2.1
      have hy : p.integrate.y = p.y + p.fallVelocity := rfl
      have hh : p.integrate.height = p.height := rfl
      show b.y - p.integrate.height ≤ p.y + 25
      linarith

/-- C1 (collision snap): for a player of the constructed height 80 whose velocity
after gravity and clamping is positive, if some bridge `b` of the sequence
overlaps the player horizontally and its top lies between the player's bottom
before the move and its bottom after the move, then `Player.update` leaves
`onGround` true, `velocityY` 0, `jumping` false, and the player's bottom
`y + height` equals the top of the first bridge, in sequence order, that passes
the landing test of lines 90-93 (no bridge listed before it passes). -/
theorem collision_snap (p : Player) (bridges : List Bridge) (b : Bridge)
    (hsize : p.height = 80) (hb : b ∈ bridges)
    (hfall : p.fallVelocity > 0)
    (hx : p.x + p.width > b.x ∧ p.x < b.x + b.width)
    (hsweep : p.y + p.height ≤ b.y ∧ b.y ≤ p.y + p.fallVelocity + p.height) :
    (p.update bridges).onGround = true ∧ (p.update bridges).velocityY = 0 ∧
    (p.update bridges).jumping = false ∧
    ∃ pre f post, bridges = pre ++ f :: post ∧
      (∀ c ∈ pre, p.integrate.landsOn c = false) ∧ p.integrate.landsOn f = true ∧
      (p.update bridges).y + (p.update bridges).height = f.y := by
  have hv := fallVelocity_le p
  have hlands : p.integrate.landsOn b = true := by
    rw [landsOn_iff]
    refine ⟨hx, ?_, ?_⟩
    · show p.y + p.fallVelocity + p.height ≥ b.y
      exact hsweep.2
    · show p.y + p.fallVelocity < b.y
      linarith [hsweep.1]
  rcases collide_cases p.integrate bridges with ⟨_, h | h⟩ | ⟨_, pre, f, post, h1, h2, h3, h4⟩
  · exact absurd hfall h
  · rw [h b hb] at hlands
    exact absurd hlands (by simp)
  · rw [Player.update, h4]
    refine ⟨rfl, rfl, rfl, pre, f, post, h1, h2, h3, ?_⟩
    show f.y - p.integrate.height + p.integrate.height = f.y
    ring

/-- Witness of C1: a player falling at 9 with its bottom at 110, over a bridge with
top 100 listed before a bridge with top 115.  The sweep 110..120 crosses the top
of the second bridge; the player is grounded with its bottom at 100, the top of
the first bridge in sequence order that passes the test of lines 90-93. -/
theorem collision_snap_witness :
    (droppingPlayer.update stackedBridges).y + 80 = 100 ∧
    (droppingPlayer.update stackedBridges).onGround = true ∧
    (droppingPlayer.update stackedBridges).velocityY = 0 ∧
    (droppingPlayer.update stackedBridges).jumping = false ∧
    ∃ pre f post, stackedBridges = pre ++ f :: post ∧
      (∀ c ∈ pre, droppingPlayer.integrate.landsOn c = false) ∧
      droppingPlayer.integrate.landsOn f = true ∧
      (droppingPlayer.update stackedBridges).y +
        (droppingPlayer.update stackedBridges).height = f.y :=
  ⟨by norm_num [Player.update, Player.integrate, Player.collide, Player.landsOn, Player.snapTo,
      Player.fallVelocity, droppingPlayer, stackedBridges, Player.new, Bridge.new, config],
   collision_snap droppingPlayer stackedBridges (Bridge.new 100 115) rfl
    (by simp [stackedBridges])
    (by norm_num [Player.fallVelocity, droppingPlayer, Player.new, config])
    (by norm_num [droppingPlayer, Player.new, Bridge.new, config])
    (by norm_num [Player.fallVelocity, droppingPlayer, Player.new, Bridge.new, config])⟩

/-- Counterexample to C2 as stated: a player at y = 400 (bottom 480, already below
the bridge top 460) falling at 10 moves down by 11 and is snapped up onto the
bridge: after `Player.update` it is grounded with y = 380, although its bottom
before the move was below the bridge top. -/
theorem landing_without_sweep_crossing :
    sunkPlayer.fallVelocity = 11 ∧
    sunkPlayer.update [Bridge.new 120 460] =
      ⟨80, 80, 150, 380, 0, false, true, 1, 44 / 5⟩ ∧
    ¬ (sunkPlayer.y + sunkPlayer.height ≤ (Bridge.new 120 460).y) := by
  refine ⟨?_, ?_, ?_⟩
  · norm_num [Player.fallVelocity, sunkPlayer, Player.new, config]
  · norm_num [Player.update, Player.integrate, Player.collide, Player.landsOn, Player.snapTo,
      Player.fallVelocity, sunkPlayer, Player.new, Bridge.new, config]
  · norm_num [sunkPlayer, Player.new, Bridge.new]

/-- C2 (amended): `Player.update` lands the player (`onGround` true afterwards)
exactly when the velocity after gravity and clamping is positive and some bridge
overlaps the player horizontally with its top inside the player's vertical
extent after the move: strictly below the player's top after the move and at or
above its bottom after the move.  Nothing is asked of the player's bottom before
the move, so a player already sunk below a bridge top is snapped up as long as
its top after the move is above that top.  When it lands, it is snapped to the
first bridge in sequence order that meets these conditions: its bottom is set to
that bridge's top, `velocityY` to 0 and `jumping` to false. -/
theorem landing_iff_body_overlap (p : Player) (bridges : List Bridge) :
    ((p.update bridges).onGround = true ↔
      p.fallVelocity > 0 ∧ ∃ b ∈ bridges,
        (p.x + p.width > b.x ∧ p.x < b.x + b.width) ∧
        p.y + p.fallVelocity < b.y ∧ b.y ≤ p.y + p.fallVelocity + p.height) ∧
    ((p.update bridges).onGround = true →
      ∃ pre b post, bridges = pre ++ b :: post ∧
        (∀ c ∈ pre, ¬ ((p.x + p.width > c.x ∧ p.x < c.x + c.width) ∧
          p.y + p.fallVelocity < c.y ∧ c.y ≤ p.y + p.fallVelocity + p.height)) ∧
        ((p.x + p.width > b.x ∧ p.x < b.x + b.width) ∧
          p.y + p.fallVelocity < b.y ∧ b.y ≤ p.y + p.fallVelocity + p.height) ∧
        p.update bridges = p.integrate.snapTo b ∧
        (p.update bridges).y + p.height = b.y ∧
        (p.update bridges).velocityY = 0 ∧ (p.update bridges).jumping = false) := by
  have hnec : (p.update bridges).onGround = true →
      p.fallVelocity > 0 ∧ ∃ pre b post, bridges = pre ++ b :: post ∧
        (∀ c ∈ pre, ¬ ((p.x + p.width > c.x ∧ p.x < c.x + c.width) ∧
          p.y + p.fallVelocity < c.y ∧ c.y ≤ p.y + p.fallVelocity + p.height)) ∧
        ((p.x + p.width > b.x ∧ p.x < b.x + b.width) ∧
          p.y + p.fallVelocity < b.y ∧ b.y ≤ p.y + p.fallVelocity + p.height) ∧
        p.update bridges = p.integrate.snapTo b ∧
        (p.update bridges).y + p.height = b.y ∧
        (p.update bridges).velocityY = 0 ∧ (p.update bridges).jumping = false := by
    intro h
    rcases collide_cases p.integrate bridges with ⟨h0, _⟩ | ⟨hv, pre, b, post, h1, h2, h3, h4⟩
    · rw [Player.update, h0] at h
      exact absurd h (by simp [Player.integrate])
    · refine ⟨hv, pre, b, post, h1, ?_, (landsOn_integrate_iff p b).1 h3, h4, ?_, ?_, ?_⟩
      · intro c hc hcond
        have := (landsOn_integrate_iff p c).2 hcond
        rw [h2 c hc] at this
        exact absurd this (by simp)
      · rw [Player.update, h4]
        show b.y - p.height + p.height = b.y
        ring
      · rw [Player.update, h4]; rfl
      · rw [Player.update, h4]; rfl
  refine ⟨⟨fun h => ?_, ?_⟩, fun h => (hnec h).2⟩
  · obtain ⟨hv, pre, b, post, h1, _, h3, _⟩ := hnec h
    refine ⟨hv, b, ?_, h3⟩
    rw [h1]
    exact List.mem_append_right _ (List.mem_cons_self _ _)
  · rintro ⟨hv, b, hb, hcond⟩
    have hl := (landsOn_integrate_iff p b).2 hcond
    rcases collide_cases p.integrate bridges with ⟨_, h | h⟩ | ⟨_, pre, f, post, _, _, _, h4⟩
    · exact absurd hv h
    · rw [h b hb] at hl
      exact absurd hl (by simp)
    · rw [Player.update, h4]
      rfl

/-- Witness of the amended C2: the player at y = 410 falling at 10 (bottom 490,
30 below the bridge top 460; top after the move 421) is landed and snapped up
to y = 380 on the bridge at x = 120. -/
theorem landing_iff_body_overlap_witness :
    deepPlayer.y + deepPlayer.height > (Bridge.new 120 460).y ∧
    (deepPlayer.update [Bridge.new 120 460]).onGround = true ∧
    ∃ pre b post, [Bridge.new 120 460] = pre ++ b :: post ∧
      (∀ c ∈ pre, ¬ ((deepPlayer.x + deepPlayer.width > c.x ∧ deepPlayer.x < c.x + c.width) ∧
        deepPlayer.y + deepPlayer.fallVelocity < c.y ∧
        c.y ≤ deepPlayer.y + deepPlayer.fallVelocity + deepPlayer.height)) ∧
      ((deepPlayer.x + deepPlayer.width > b.x ∧ deepPlayer.x < b.x + b.width) ∧
        deepPlayer.y + deepPlayer.fallVelocity < b.y ∧
        b.y ≤ deepPlayer.y + deepPlayer.fallVelocity + deepPlayer.height) ∧
      deepPlayer.update [Bridge.new 120 460] = deepPlayer.integrate.snapTo b ∧
      (deepPlayer.update [Bridge.new 120 460]).y + deepPlayer.height = b.y ∧
      (deepPlayer.update [Bridge.new 120 460]).velocityY = 0 ∧
      (deepPlayer.update [Bridge.new 120 460]).jumping = false :=
  have h : (deepPlayer.update [Bridge.new 120 460]).onGround = true :=
    (landing_iff_body_overlap deepPlayer [Bridge.new 120 460]).1.2
      ⟨by norm_num [Player.fallVelocity, deepPlayer, Player.new, config],
       Bridge.new 120 460, List.mem_singleton_self _,
       by norm_num [Player.fallVelocity, deepPlayer, Player.new, Bridge.new, config]⟩
  ⟨by norm_num [deepPlayer, Player.new, Bridge.new],
   h, (landing_iff_body_overlap deepPlayer [Bridge.new 120 460]).2 h⟩

/-- C3 (gap policy and spawn position): when `update()` spawns (session running
and not over, a bridge present, `rightmost < 1000`), with `s` the incremented
score and any two draws in [0,1), the new bridge is appended at
`x = rightmost + off` for an integer `off` with `off = 0` if `s ≤ 100`,
`0 ≤ off < 16` if `100 < s ≤ 150`, and for `s > 150` `130 ≤ off ≤ 220` when the
first draw is below 1/4 and `0 ≤ off < 16` when it is not; `off ≥ 0`, and the new
rightmost trailing edge is `rightmost + off + 120`, at least the previous one.
Here `rightmost`, the value of the `reduce` of lines 240-241, bounds every
trailing edge and is the trailing edge of some bridge as soon as one bridge has
`x + width ≥ 0` (which the filter of lines 262-265 leaves true of all). -/
theorem gap_policy (g : GameState) (d : Draws)
    (hrun : g.running = true) (hover : g.gameOver = false)
    (hne : g.bridges ≠ []) (hrm : rightmost g.bridges < 1000) (hd : d.valid) :
    (∀ b ∈ g.bridges, b.x + b.width ≤ rightmost g.bridges) ∧
    ((∃ b ∈ g.bridges, 0 ≤ b.x + b.width) →
      ∃ b ∈ g.bridges, rightmost g.bridges = b.x + b.width) ∧
    ∃ off : ℤ,
      (update g d).score = g.score + 1 ∧
      spawn (g.score + 1) g.bridges d =
        g.bridges ++ [Bridge.new (rightmost g.bridges + (off : ℚ)) 460] ∧
      (update g d).bridges =
        updateBridges (g.bridges ++ [Bridge.new (rightmost g.bridges + (off : ℚ)) 460]) ∧
      (g.score + 1 ≤ 100 → off = 0) ∧
      (100 < g.score + 1 → g.score + 1 ≤ 150 → 0 ≤ off ∧ off < 16) ∧
      (150 < g.score + 1 →
        (d.first < 1 / 4 → 130 ≤ off ∧ off ≤ 220) ∧
        (¬ d.first < 1 / 4 → 0 ≤ off ∧ off < 16)) ∧
      0 ≤ off ∧
      rightmost (spawn (g.score + 1) g.bridges d) = rightmost g.bridges + (off : ℚ) + 120 ∧
      rightmost g.bridges ≤ rightmost (spawn (g.score + 1) g.bridges d) := by
  obtain ⟨h1, h2, h3, h4⟩ := spawnOffset_bounds (g.score + 1) d hd
  have hsp := spawn_of_trigger (g.score + 1) g.bridges d hne hrm
  have hoff : (0 : ℚ) ≤ (spawnOffset (g.score + 1) d : ℚ) := by exact_mod_cast h4
  have hrmost : rightmost (spawn (g.score + 1) g.bridges d) =
      rightmost g.bridges + (spawnOffset (g.score + 1) d : ℚ) + 120 := by
    rw [hsp, rightmost_append]
    show max (rightmost g.bridges)
      (rightmost g.bridges + (spawnOffset (g.score + 1) d : ℚ) + 120) = _
    exact max_eq_right (by linarith)
  refine ⟨rightmost_ge_mem g.bridges, ?_,
    spawnOffset (g.score + 1) d, ?_, hsp, ?_, h1, h2, h3, h4, hrmost, ?_⟩
  · rintro ⟨b, hb, hb0⟩
    rcases rightmost_cases g.bridges with h0 | hex
    · have := rightmost_ge_mem g.bridges b hb
      exact ⟨b, hb, by rw [h0] at this ⊢; exact le_antisymm hb0 this⟩
    · exact hex
  · rw [update_live g d hrun hover]
    split_ifs <;> rfl
  · rw [update_live g d hrun hover, hsp]
    split_ifs <;> rfl
  · rw [hrmost]; linarith

/-- Witness of C3: at score 199 (so `s = 200`) with one bridge ending at 620 and a
first draw 1/8, second draw 1/2, the new bridge is placed at 620 + 175. -/
theorem gap_policy_witness :
    spawn 200 lateSession.bridges wideDraws = [Bridge.new 500 460, Bridge.new 795 460] ∧
    ∃ off : ℤ,
      (update lateSession wideDraws).score = lateSession.score + 1 ∧
      spawn (lateSession.score + 1) lateSession.bridges wideDraws =
        lateSession.bridges ++ [Bridge.new (rightmost lateSession.bridges + (off : ℚ)) 460] ∧
      (update lateSession wideDraws).bridges =
        updateBridges
          (lateSession.bridges ++ [Bridge.new (rightmost lateSession.bridges + (off : ℚ)) 460]) ∧
      (lateSession.score + 1 ≤ 100 → off = 0) ∧
      (100 < lateSession.score + 1 → lateSession.score + 1 ≤ 150 → 0 ≤ off ∧ off < 16) ∧
      (150 < lateSession.score + 1 →
        (wideDraws.first < 1 / 4 → 130 ≤ off ∧ off ≤ 220) ∧
        (¬ wideDraws.first < 1 / 4 → 0 ≤ off ∧ off < 16)) ∧
      0 ≤ off ∧
      rightmost (spawn (lateSession.score + 1) lateSession.bridges wideDraws) =
        rightmost lateSession.bridges + (off : ℚ) + 120 ∧
      rightmost lateSession.bridges ≤
        rightmost (spawn (lateSession.score + 1) lateSession.bridges wideDraws) :=
  ⟨by norm_num [spawn, rightmost, spawnOffset, lateSession, wideDraws, Bridge.new, config],
   (gap_policy lateSession wideDraws rfl rfl (by simp [lateSession])
    (by norm_num [rightmost, lateSession, Bridge.new, config])
    (by norm_num [Draws.valid, wideDraws])).2.2⟩

/-- Counterexample to C4 as stated: in a running, not-over session with an empty
bridge sequence (rightmost edge taken as 0, below 1000) a tick spawns nothing: the
spawn block is skipped by the guard of line 239. -/
theorem no_spawn_on_empty :
    emptySession.running = true ∧ emptySession.gameOver = false ∧
    emptySession.bridges = [] ∧ rightmost emptySession.bridges = 0 ∧
    (0 : ℚ) < config.width + 200 ∧
    spawn (emptySession.score + 1) emptySession.bridges calmDraws = [] ∧
    (update emptySession calmDraws).bridges = [] := by
  refine ⟨rfl, rfl, rfl, rfl, by norm_num [config], rfl, ?_⟩
  rw [update_live emptySession calmDraws rfl rfl]
  split_ifs <;> rfl

/-- C4 (amended): in a running, not-over session one call of `update()`, with draws
in [0,1), appends exactly one new bridge at the end of the sequence when the
sequence is not empty and every trailing edge `x + width` is below 1000 (the
test `rightmost < 1000` of the code), and appends none otherwise; with an empty
sequence nothing is spawned and the sequence stays empty; no tick spawns more than
one bridge. -/
theorem spawn_trigger (g : GameState) (d : Draws)
    (hrun : g.running = true) (hover : g.gameOver = false) (hd : d.valid) :
    (g.bridges ≠ [] → (rightmost g.bridges < 1000 ↔ ∀ b ∈ g.bridges, b.x + b.width < 1000)) ∧
    (g.bridges ≠ [] ∧ (∀ b ∈ g.bridges, b.x + b.width < 1000) →
      ∃ b, spawn (g.score + 1) g.bridges d = g.bridges ++ [b] ∧
        (update g d).bridges = updateBridges g.bridges ++ [b.update]) ∧
    (¬ (g.bridges ≠ [] ∧ ∀ b ∈ g.bridges, b.x + b.width < 1000) →
      spawn (g.score + 1) g.bridges d = g.bridges ∧
        (update g d).bridges = updateBridges g.bridges) ∧
    (g.bridges = [] → (update g d).bridges = []) ∧
    (spawn (g.score + 1) g.bridges d).length ≤ g.bridges.length + 1 := by
  have hiff := rightmost_lt_iff g.bridges 1000 (by norm_num)
  have hbr : (update g d).bridges = updateBridges (spawn (g.score + 1) g.bridges d) := by
    rw [update_live g d hrun hover]
    split_ifs <;> rfl
  have hyes : g.bridges ≠ [] ∧ (∀ b ∈ g.bridges, b.x + b.width < 1000) →
      ∃ b, spawn (g.score + 1) g.bridges d = g.bridges ++ [b] ∧
        (update g d).bridges = updateBridges g.bridges ++ [b.update] := by
    rintro ⟨hne, hall⟩
    have hsp := spawn_of_trigger (g.score + 1) g.bridges d hne (hiff.2 hall)
    refine ⟨_, hsp, ?_⟩
    have hoff : (0 : ℚ) ≤ (spawnOffset (g.score + 1) d : ℚ) := by
      exact_mod_cast (spawnOffset_bounds (g.score + 1) d hd).2.2.2
    have hrm := rightmost_nonneg g.bridges
    have hvis : (Bridge.new (rightmost g.bridges + (spawnOffset (g.score + 1) d : ℚ))
        460).update.visible = true := by
      simp only [Bridge.visible, Bridge.update, Bridge.new, config, decide_eq_true_eq]
      linarith
    rw [hbr, hsp]
    simp [updateBridges, List.filterMap_append, hvis]
  have hno : ¬ (g.bridges ≠ [] ∧ ∀ b ∈ g.bridges, b.x + b.width < 1000) →
      spawn (g.score + 1) g.bridges d = g.bridges ∧
        (update g d).bridges = updateBridges g.bridges := by
    intro h
    have hsp : spawn (g.score + 1) g.bridges d = g.bridges := by
      apply spawn_of_no_trigger
      by_cases hne : g.bridges = []
      · exact Or.inl hne
      · exact Or.inr fun hlt => h ⟨hne, hiff.1 hlt⟩
    exact ⟨hsp, by rw [hbr, hsp]⟩
  refine ⟨fun _ => hiff, hyes, hno, ?_, ?_⟩
  · intro he
    rw [(hno (fun h => h.1 he)).2, he]
    rfl
  · by_cases h : g.bridges ≠ [] ∧ ∀ b ∈ g.bridges, b.x + b.width < 1000
    · obtain ⟨b, hb, _⟩ := hyes h
      rw [hb]; simp
    · rw [(hno h).1]; omega

/-- Witness of the amended C4 at a session with one bridge ending at 620: one
bridge is appended; and at the empty session: none is. -/
theorem spawn_trigger_witness :
    (∃ b, spawn (lateSession.score + 1) lateSession.bridges calmDraws =
        lateSession.bridges ++ [b] ∧
      (update lateSession calmDraws).bridges = updateBridges lateSession.bridges ++ [b.update]) ∧
    (update emptySession calmDraws).bridges = [] :=
  ⟨(spawn_trigger lateSession calmDraws rfl rfl (by norm_num [Draws.valid, calmDraws])).2.1
      ⟨by simp [lateSession], by
        intro b hb
        have : b = Bridge.new 500 460 := by simpa [lateSession] using hb
        subst this
        norm_num [Bridge.new, config]⟩,
   (spawn_trigger emptySession calmDraws rfl rfl
      (by norm_num [Draws.valid, calmDraws])).2.2.2.1 rfl⟩

/-- C5 (terminal condition): in a running, not-over session, after `update()`
`gameOver` is true exactly when the player's `y` after the tick exceeds 600, and
then `running` is false (otherwise the session stays running); in a session that
is over or not running `update()` returns the state unchanged, and so does any
number of further calls: the score no longer moves; over any run of ticks the
game-over presentation (`showGameOver()`) is made at most once, once exactly when
a session that was not over ends over. -/
theorem terminal_condition (g : GameState) (d : Draws) (ds : List Draws) :
    (g.running = true → g.gameOver = false →
      ((update g d).gameOver = true ↔ (update g d).player.y > 600) ∧
      ((update g d).gameOver = true → (update g d).running = false) ∧
      ((update g d).gameOver = false → (update g d).running = true) ∧
      (update g d).score = g.score + 1) ∧
    (g.gameOver = true ∨ g.running = false →
      update g d = g ∧ run g ds = g ∧ (run g ds).score = g.score) ∧
    (run g ds).gameOverShown ≤ g.gameOverShown + 1 ∧
    (g.gameOver = false →
      (run g ds).gameOverShown =
        g.gameOverShown + if (run g ds).gameOver = true then 1 else 0) := by
  refine ⟨?_, ?_, ?_, run_shown g ds⟩
  · intro hrun hover
    rw [update_live g d hrun hover]
    split_ifs with h
    · exact ⟨⟨fun _ => h, fun _ => rfl⟩, fun _ => rfl, fun h' => by simp at h', rfl⟩
    · refine ⟨⟨fun h' => ?_, fun h' => absurd h' h⟩, fun h' => ?_, fun _ => hrun, rfl⟩
      · simp [hover] at h'
      · simp [hover] at h'
  · intro h
    exact ⟨update_frozen g d h, run_frozen g ds h, by rw [run_frozen g ds h]⟩
  · by_cases hover : g.gameOver = true
    · rw [run_frozen g ds (Or.inl hover)]; omega
    · have ho : g.gameOver = false := by simpa using hover
      rw [run_shown g ds ho]
      split_ifs <;> omega

/-- Witness of C5: a session whose player is at y = 590 falling at 24 ends on the
next tick (y = 615 > 600); three further ticks leave the state as it is and the
presentation count at 1. -/
theorem terminal_condition_witness :
    (update fallingSession calmDraws).player.y = 615 ∧
    (update fallingSession calmDraws).gameOver = true ∧
    (update fallingSession calmDraws).running = false ∧
    (update fallingSession calmDraws).score = 41 ∧
    run (update fallingSession calmDraws) [calmDraws, wideDraws, calmDraws] =
      update fallingSession calmDraws ∧
    (run fallingSession [calmDraws, calmDraws, wideDraws, calmDraws]).gameOverShown = 1 :=
  have hy : (update fallingSession calmDraws).player.y = 615 := by
    rw [update_live fallingSession calmDraws rfl rfl]
    norm_num [fallingSession, spawn, Player.update, Player.integrate, Player.collide,
      Player.fallVelocity, Player.new, config]
  have h1 := (terminal_condition fallingSession calmDraws []).1 rfl rfl
  have hover : (update fallingSession calmDraws).gameOver = true := h1.1.2 (by rw [hy]; norm_num)
  have h2 := (terminal_condition (update fallingSession calmDraws) calmDraws
    [calmDraws, wideDraws, calmDraws]).2.1 (Or.inl hover)
  have h3 := (terminal_condition fallingSession calmDraws
    [calmDraws, calmDraws, wideDraws, calmDraws]).2.2.2 rfl
  ⟨hy, hover, h1.2.1 hover, h1.2.2.2, h2.2.1, by
    rw [h3, run_cons, h2.2.1, if_pos hover]
    rfl⟩

/-- C7 (end to end, no bridges): from the `initGame()` state with all bridges
removed, whatever the draws, after `n ≤ 24` calls of `update()` the session is
still running and not over with score `n` and the player at
`y = 300 + n (n + 1) / 2 ≤ 600`; after 25 calls the player is at y = 625 > 600,
`gameOver` is true, `running` false, the score 25 and `showGameOver()` has been
called once; every longer run ends in that same state. -/
theorem fall_without_bridges (g : GameState) (ds : List Draws) :
    (bareSession g).player.y = 300 ∧ (bareSession g).player.velocityY = 0 ∧
    (ds.length ≤ 24 →
      (run (bareSession g) ds).running = true ∧ (run (bareSession g) ds).gameOver = false ∧
      (run (bareSession g) ds).score = ds.length ∧
      (run (bareSession g) ds).player.y = 300 + (ds.length : ℚ) * ((ds.length : ℚ) + 1) / 2 ∧
      (run (bareSession g) ds).player.y ≤ 600 ∧
      (run (bareSession g) ds).gameOverShown = g.gameOverShown) ∧
    (25 ≤ ds.length →
      (run (bareSession g) ds).player.y = 625 ∧
      (run (bareSession g) ds).gameOver = true ∧ (run (bareSession g) ds).running = false ∧
      (run (bareSession g) ds).score = 25 ∧
      (run (bareSession g) ds).gameOverShown = g.gameOverShown + 1 ∧
      run (bareSession g) ds = run (bareSession g) (ds.take 25)) := by
  have hrun := freeFall_run g ds 0 (by omega)
  rw [freeFall_zero, Nat.zero_add] at hrun
  refine ⟨rfl, rfl, ?_, ?_⟩
  · intro h
    rw [hrun, if_pos h]
    exact ⟨rfl, rfl, rfl, rfl, freeFall_y_le _ h, rfl⟩
  · intro h
    have htake := freeFall_run g (ds.take 25) 0 (by omega)
    rw [freeFall_zero, Nat.zero_add, List.length_take, Nat.min_eq_left h,
      if_neg (by omega)] at htake
    rw [hrun, if_neg (by omega), htake]
    refine ⟨?_, rfl, rfl, rfl, rfl, rfl⟩
    norm_num [fallenSession, freeFallPlayer]

/-- Witness of C7 at runs of 24, 25 and 30 ticks. -/
theorem fall_without_bridges_witness :
    ((run (bareSession emptySession) (List.replicate 24 wideDraws)).running = true ∧
      (run (bareSession emptySession) (List.replicate 24 wideDraws)).player.y ≤ 600) ∧
    ((run (bareSession emptySession) (List.replicate 25 wideDraws)).player.y = 625 ∧
      (run (bareSession emptySession) (List.replicate 25 wideDraws)).gameOver = true ∧
      (run (bareSession emptySession) (List.replicate 25 wideDraws)).running = false) ∧
    ((run (bareSession emptySession) (List.replicate 30 calmDraws)).score = 25 ∧
      (run (bareSession emptySession) (List.replicate 30 calmDraws)).gameOverShown = 1) :=
  have h24 := (fall_without_bridges emptySession (List.replicate 24 wideDraws)).2.2.1
    (by simp)
  have h25 := (fall_without_bridges emptySession (List.replicate 25 wideDraws)).2.2.2
    (by simp)
  have h30 := (fall_without_bridges emptySession (List.replicate 30 calmDraws)).2.2.2
    (by simp)
  ⟨⟨h24.1, h24.2.2.2.2.1⟩, ⟨h25.1, h25.2.1, h25.2.2.1⟩, ⟨h30.2.2.2.1, h30.2.2.2.2.1⟩⟩

/-- C6 (end to end, 1000 ticks): from the state built by `initGame()` (player at
y = 300, ten bridges at y = 460), 1000 calls of `update()` without jump, for any
draws in [0,1) with which no tick takes the wide-gap branch, end with score 1000,
score text "100m", `running` true, `gameOver` false, and the player grounded
with `velocityY` 0 and its bottom at 460. -/
theorem thousand_ticks (g : GameState) (ds : List Draws)
    (hlen : ds.length = 1000) (hvalid : ∀ d ∈ ds, d.valid)
    (hgap : noWideGap (initGame g) ds) :
    (initGame g).player.y = 300 ∧ (initGame g).bridges.length = 10 ∧
    (∀ b ∈ (initGame g).bridges, b.y = 460) ∧
    (run (initGame g) ds).score = 1000 ∧
    scoreText (run (initGame g) ds) = "100m" ∧
    (run (initGame g) ds).running = true ∧
    (run (initGame g) ds).gameOver = false ∧
    (run (initGame g) ds).player.onGround = true ∧
    (run (initGame g) ds).player.velocityY = 0 ∧
    (run (initGame g) ds).player.y + (run (initGame g) ds).player.height = 460 := by
  obtain ⟨⟨hrun, hover, ⟨_, _, hh⟩, hy, _, hst, _⟩, hsc⟩ :=
    safe_run (initGame g) ds hvalid hgap (safe_init g)
  have hscore : (run (initGame g) ds).score = 1000 := by
    rw [hsc, hlen]
    rfl
  have hground : (run (initGame g) ds).player.y = 380 ∧
      (run (initGame g) ds).player.velocityY = 0 ∧
      (run (initGame g) ds).player.onGround = true ∧
      (run (initGame g) ds).player.jumping = false := by
    rcases hst with hst | hst
    · rw [hscore] at hst
      push_cast at hst
      linarith
    · exact hst
  refine ⟨rfl, rfl, ?_, hscore, ?_, hrun, hover, hground.2.2.1, hground.2.1, ?_⟩
  · intro b hb
    exact ((safe_init g).2.2.2.2.2.2.1 b hb).1
  · rw [scoreText, hscore]
    rfl
  · rw [hground.1, hh]
    norm_num

/-- Witness of C6 with the draws (1/2, 1/2) on each of the 1000 ticks. -/
theorem thousand_ticks_witness :
    (run (initGame emptySession) (List.replicate 1000 calmDraws)).score = 1000 ∧
    scoreText (run (initGame emptySession) (List.replicate 1000 calmDraws)) = "100m" ∧
    (run (initGame emptySession) (List.replicate 1000 calmDraws)).running = true ∧
    (run (initGame emptySession) (List.replicate 1000 calmDraws)).gameOver = false ∧
    (run (initGame emptySession) (List.replicate 1000 calmDraws)).player.onGround = true ∧
    (run (initGame emptySession) (List.replicate 1000 calmDraws)).player.velocityY = 0 ∧
    (run (initGame emptySession) (List.replicate 1000 calmDraws)).player.y +
      (run (initGame emptySession) (List.replicate 1000 calmDraws)).player.height = 460 :=
  (thousand_ticks emptySession (List.replicate 1000 calmDraws) (List.length_replicate _ _)
    (fun d hd => by
      rw [List.eq_of_mem_replicate hd]
      norm_num [Draws.valid, calmDraws])
    (noWideGap_of_first _ _ fun d hd => by
      rw [List.eq_of_mem_replicate hd]
      norm_num [calmDraws])).2.2.2

/-- C10 (platform removal): the platform step moves every bridge 7 to the left
and leaves `y`, `width`, `height` alone; it keeps exactly the moved bridges with
`x + width > 0`, as a subsequence of the moved input (relative order kept);
every survivor has `x + width > 0`, so the removal test applied to the result
removes nothing. -/
theorem platform_removal (bridges : List Bridge) :
    (∀ b : Bridge, b.update.x = b.x - 7 ∧ b.update.y = b.y ∧
      b.update.width = b.width ∧ b.update.height = b.height) ∧
    updateBridges bridges =
      (bridges.map Bridge.update).filter (fun b => decide (b.x + b.width > 0)) ∧
    List.Sublist (updateBridges bridges) (bridges.map Bridge.update) ∧
    (∀ b ∈ updateBridges bridges, b.x + b.width > 0) ∧
    (updateBridges bridges).filter (fun b => decide (b.x + b.width > 0)) =
      updateBridges bridges := by
  have heq := updateBridges_eq bridges
  refine ⟨fun b => ⟨rfl, rfl, rfl, rfl⟩, heq, ?_, ?_, ?_⟩
  · rw [heq]
    exact List.filter_sublist _
  · intro b hb
    rw [heq] at hb
    have := (List.mem_filter.1 hb).2
    simpa [Bridge.visible] using this
  · rw [heq, List.filter_filter]
    congr 1
    funext b
    simp [Bridge.visible]

/-- Witness of C10: of three bridges at x = -115, 5, 125 the first is removed, the
other two are kept in order at x = -2, 118, and filtering again changes nothing. -/
theorem platform_removal_witness :
    updateBridges scrollingBridges = [⟨-2, 460, 120, 40⟩, ⟨118, 460, 120, 40⟩] ∧
    (updateBridges scrollingBridges).filter (fun b => decide (b.x + b.width > 0)) =
      updateBridges scrollingBridges :=
  ⟨by norm_num [updateBridges_eq, scrollingBridges, Bridge.new, Bridge.update,
      Bridge.visible, config, List.filter],
   (platform_removal scrollingBridges).2.2.2.2⟩

end BridgeRunner
